import Mathlib

/-!
# Verification of the Gomoku move-search core

Shallow embedding of `project_game.py` (board state, win detection, pattern
evaluator, neighbour filter) and `ai.py` (plain minimax search and alpha-beta
negamax search), together with theorems settling the specification claims.

Conventions, mirroring the Python source:
* a board is a list of 15 rows, each a list of 15 cells; a cell is `0`
  (empty), `1` (white stone) or `2` (black stone);
* a move is a `(y, x)` pair of coordinates, each meant to lie in `[0, 14]`;
* Python's in-place mutation is rendered as explicit state passing: a method
  that mutates `self` becomes a function returning the updated state.
-/

set_option maxRecDepth 4000

abbrev Cell : Type := Int

abbrev Board : Type := List (List Cell)

abbrev Move : Type := Nat × Nat

/-- Read `board[y][x]`; out-of-range reads (which the Python code always
guards against before indexing) default to `0`. -/
def cell (b : Board) (y x : Nat) : Cell :=
  (b.getD y []).getD x 0

/-- Write `board[y][x] = v`, leaving the board unchanged when the row index
is out of range (the source only writes at coordinates of valid moves). -/
def updateBoard (b : Board) (y x : Nat) (v : Cell) : Board :=
  b.set y ((b.getD y []).set x v)

/-- The fresh 15×15 all-zero board built by `GomokuGame.__init__`. -/
def initBoard : Board :=
  List.replicate 15 (List.replicate 15 (0 : Cell))

/-- The initial valid-move list `[(y, x) for x in range(0, 15) for y in range(0, 15)]`:
the `x` loop is outermost, so `y` varies fastest. -/
def allMoves : List Move :=
  (List.range 15).flatMap (fun x => (List.range 15).map (fun y => (y, x)))

/-- The state of `GomokuGame`: board grid, valid-move list, active color,
move count, move history and last move (the visualization-only width/height
fields are omitted). -/
structure Game where
  board : Board
  validMoves : List Move
  isWhiteActive : Bool
  moveCount : Nat
  movesSoFar : List Move
  lastMove : Option Move
deriving Repr, DecidableEq

/-- `GomokuGame.__init__(board, white_active, move_count)`: note that the
valid-move list is always reset to all 225 cells and the history and last
move are cleared, even when a (possibly non-empty) board is supplied.
`none` renders Python's `board=None` default; a supplied empty list is also
falsy in `if board:` and keeps the fresh board. -/
def initGame (b? : Option Board) (whiteActive : Bool) (moveCount : Nat) : Game :=
  { board := match b? with
      | some b => if b.isEmpty then initBoard else b
      | none => initBoard
    validMoves := allMoves
    isWhiteActive := whiteActive
    moveCount := moveCount
    movesSoFar := []
    lastMove := none }

/-- `GomokuGame.make_move(move)`. On a move not in the valid list the Python
method prints a message and returns without touching any field, so the state
is returned unchanged; no exception is raised. On a valid move it places the
active color's stone, flips the turn, bumps the count, records the move and
removes it from the valid list (Python `list.remove`, first occurrence). -/
def makeMove (g : Game) (m : Move) : Game :=
  if m ∈ g.validMoves then
    { board := updateBoard g.board m.1 m.2 (if g.isWhiteActive then 1 else 2)
      validMoves := g.validMoves.erase m
      isWhiteActive := !g.isWhiteActive
      moveCount := g.moveCount + 1
      movesSoFar := g.movesSoFar ++ [m]
      lastMove := some m }
  else g

/-- `GomokuGame.copy_and_make_move(move)`. The first component is the
receiver after the call (the method never assigns to `self`, so it is the
receiver itself); the second is the returned clone, or `none` when the move
is not in the receiver's valid list (the method prints and returns `None`).
The clone is built by `GomokuGame(board=deepcopy(self._board),
white_active=..., move_count=...)`, so its valid list, history and last move
are freshly initialized, and then the move is applied to the clone. -/
def copyAndMakeMove (g : Game) (m : Move) : Game × Option Game :=
  if m ∈ g.validMoves then
    (g, some (makeMove (initGame (some g.board) g.isWhiteActive g.moveCount) m))
  else (g, none)

/-- The clone produced by `copy_and_make_move`, defaulting to the receiver
itself for an invalid move. The search loops only apply this to moves drawn
from the receiver's valid list, where the clone always exists (on an invalid
move the Python search would crash on `None`). -/
def childGame (g : Game) (m : Move) : Game :=
  ((copyAndMakeMove g m).2).getD g

/-! ## Win detection (`_five_in_a_row`, `_count_direction_5`, `get_winner`) -/

/-- `_DIRECTIONS`: four axes, each a pair of opposite `(x_direction,
y_direction)` offsets. -/
def directions : List (List (Int × Int)) :=
  [[(-1, 0), (1, 0)], [(0, -1), (0, 1)], [(-1, 1), (1, -1)], [(-1, -1), (1, 1)]]

/-- The loop body of `_count_direction_5`: starting at `step`, walk at most
`fuel` further steps away from `(y, x)` along `(xd, yd)`, counting cells
equal to `want` and stopping at the first bound violation or mismatch.
Mirrors the Python `for step in range(1, 5)` body including its quirk of
bound-checking a coordinate only when its direction component is nonzero. -/
def countFrom (b : Board) (y x : Nat) (xd yd : Int) (want : Cell) :
    Nat → Nat → Nat
  | _, 0 => 0
  | step, fuel + 1 =>
    let xi : Int := (x : Int) + xd * step
    let yi : Int := (y : Int) + yd * step
    if xd ≠ 0 ∧ (xi < 0 ∨ 14 < xi) then 0
    else if yd ≠ 0 ∧ (yi < 0 ∨ 14 < yi) then 0
    else if cell b yi.toNat xi.toNat = want then
      1 + countFrom b y x xd yd want (step + 1) fuel
    else 0

/-- `_count_direction_5`: count same-color stones outward from `(y, x)` in
direction `(xd, yd)`, capped at 4 steps. A white turn means the stone just
played was black (`want = 2`), and conversely. -/
def countDirection5 (b : Board) (y x : Nat) (xd yd : Int) (whiteTurn : Bool) : Nat :=
  countFrom b y x xd yd (if whiteTurn then 2 else 1) 1 4

/-- One iteration of the outer loop of `_five_in_a_row` for a single axis:
`count` starts at 1 and, after adding each of the two opposite directions'
counts, the loop returns `True` as soon as `count == 5`. -/
def runDirection (b : Board) (y x : Nat) (whiteTurn : Bool)
    (dir : List (Int × Int)) : Bool :=
  (dir.foldl
    (fun (st : Nat × Bool) d =>
      if st.2 then st
      else
        let c := st.1 + countDirection5 b y x d.1 d.2 whiteTurn
        (c, c = 5))
    (1, false)).2

/-- `_five_in_a_row`. -/
def fiveInARow (b : Board) (y x : Nat) (whiteTurn : Bool) : Bool :=
  directions.any (runDirection b y x whiteTurn)

/-- `GomokuGame.get_winner`. With no move yet, `None`. Otherwise the draw
test `move_count >= 225` runs first, then the five-in-a-row test through the
last move for the color that just played. A positive `move_count` with no
recorded last move would crash Python on `None[0]`; that combination is
unreachable through the API and is rendered as `none`. -/
def getWinner (g : Game) : Option String :=
  if g.moveCount = 0 then none
  else
    match g.lastMove with
    | none => none
    | some c =>
      if 225 ≤ g.moveCount then some "Draw"
      else if fiveInARow g.board c.1 c.2 g.isWhiteActive then
        some (if g.isWhiteActive then "Black" else "White")
      else none

/-! The claims' measure of a run: the contiguous same-color run through a
cell along an axis, counted outward in both directions with no cap. -/

/-- Modelled from the spec: walk outward from `(y, x)` along `(xd, yd)`,
counting contiguous cells equal to `want`, stopping at the board edge or at
a differing cell, with no cap on the length (`fuel` of 15 covers the whole
board line). -/
def specRunFrom (b : Board) (y x : Nat) (xd yd : Int) (want : Cell) :
    Nat → Nat → Nat
  | _, 0 => 0
  | step, fuel + 1 =>
    let xi : Int := (x : Int) + xd * step
    let yi : Int := (y : Int) + yd * step
    if 0 ≤ xi ∧ xi ≤ 14 ∧ 0 ≤ yi ∧ yi ≤ 14 ∧ cell b yi.toNat xi.toNat = want then
      1 + specRunFrom b y x xd yd want (step + 1) fuel
    else 0

/-- Modelled from the spec: the total contiguous run of stones of color
`want` through `(y, x)` along the axis given by a pair of opposite
directions, including the stone at `(y, x)` itself. -/
def specRunTotal (b : Board) (y x : Nat) (want : Cell)
    (axis : (Int × Int) × (Int × Int)) : Nat :=
  1 + specRunFrom b y x axis.1.1 axis.1.2 want 1 15
    + specRunFrom b y x axis.2.1 axis.2.2 want 1 15

/-! ## Pattern catalog and line evaluator
(`_CHESS_PATTERN_BLACK`, `_CHESS_PATTERN_SCORE`, `_evaluate_line`,
`_check_contain`, `GomokuGame.generate_line`, `GomokuGame.evaluate_game`) -/

/-- The pattern catalog: each entry pairs the signature from
`_CHESS_PATTERN_BLACK` with its score from `_CHESS_PATTERN_SCORE`, in the
dictionary's insertion order (the order does not affect the summed score). -/
def catalog : List (List Cell × Int) :=
  [([2, 2, 2, 2, 2], 99999990),       -- Connect_Five
   ([1, 1, 1, 1, 2], 10000000),       -- STOP_FOUR
   ([0, 1, 1, 1, 2], 77777780),       -- STOP_THREE
   ([2, 1, 1, 1, 2], 77777770),       -- STOP_THREE_2
   ([0, 2, 2, 2, 2, 0], 80000000),    -- Open_Four
   ([2, 2, 2, 2], 20000),             -- Dead_Four
   ([2, 1, 1, 1, 1, 2], 88888880),    -- Blocked_Four_4
   ([0, 2, 2, 2, 2, 1], 60000),       -- Blocked_Four_1
   ([2, 2, 2, 0, 2], 55000),          -- Blocked_Four_2
   ([2, 2, 0, 2, 2], 55000),          -- Blocked_Four_3
   ([0, 2, 2, 2, 0], 50000),          -- Open_Three_1
   ([2, 0, 2, 2], 30000),             -- Open_Three_2
   ([0, 0, 2, 2, 2, 1], 10000),       -- Pattern_Three_1
   ([0, 2, 0, 2, 2, 1], 8000),        -- Pattern_Three_2
   ([0, 2, 2, 0, 2, 0], 8000),        -- Pattern_Three_3
   ([2, 0, 0, 2, 2], 9000),           -- Pattern_Three_4
   ([2, 0, 2, 0, 2], 6000),           -- Pattern_Three_5
   ([1, 0, 2, 2, 2, 0, 1], 8000),     -- Pattern_Three_6
   ([0, 0, 2, 2, 0, 0], 2000),        -- Pattern_Two_1
   ([0, 2, 0, 2, 0], 1500),           -- Pattern_Two_2
   ([2, 0, 0, 2], 1000),              -- Pattern_Two_3
   ([1, 1, 2, 1], 77777780),          -- Lian_4
   ([1, 0, 2, 2, 2, 2], 71000),       -- Live_3_kong_1
   ([1, 2, 2, 2, 2, 2], 99999970),    -- black_win2
   ([1, 2, 2, 2, 2, 2, 1], 99999980)] -- black_win

/-- `_check_contain(a, b)`: whether `a` occurs as a contiguous slice of `b`,
via `any(a == b[i:i + n] for i in range(len(b) - n + 1))`. With natural
subtraction an oversized `a` still fails every slice comparison, matching
Python's empty `range`. -/
def checkContain (a b : List Cell) : Bool :=
  (List.range (b.length - a.length + 1)).any
    (fun i => (b.drop i).take a.length == a)

/-- `_evaluate_line(line)`: sum the scores of every catalog pattern whose
signature or reversed signature occurs in the line. -/
def evaluateLine (line : List Cell) : Int :=
  catalog.foldl
    (fun score p =>
      if checkContain p.1 line || checkContain p.1.reverse line then score + p.2
      else score)
    0

/-- The inner `getline(board)` of `GomokuGame.generate_line`: the full board
line through `center = (y, x)` along direction `0` (row), `1` (column),
`2` (x + i - y diagonal) or `3` (y + x - i anti-diagonal); the diagonals
mark out-of-range columns with a `-1` sentinel and filter it out. -/
def getline (b : Board) (y x : Nat) (dir : Nat) : List Cell :=
  if dir = 0 then b.getD y []
  else if dir = 1 then b.map (fun row => row.getD x 0)
  else if dir = 2 then
    (b.enum.map
      (fun p =>
        let j : Int := (x : Int) + p.1 - y
        if 0 ≤ j ∧ j ≤ 14 then p.2.getD j.toNat 0 else -1)).filter (· ≠ -1)
  else if dir = 3 then
    (b.enum.map
      (fun p =>
        let j : Int := (y : Int) - p.1 + x
        if 0 ≤ j ∧ j ≤ 14 then p.2.getD j.toNat 0 else -1)).filter (· ≠ -1)
  else []

/-- `GomokuGame.generate_line(center, direction)`: the pair
`(line before the last stone, line as it is now)`, the first computed on a
deep copy of the board with the center cell reset to `0`. -/
def generateLine (b : Board) (y x : Nat) (dir : Nat) : List Cell × List Cell :=
  (getline (updateBoard b y x 0) y x dir, getline b y x dir)

/-- `GomokuGame.evaluate_game` at a given center: the sum over the four
directions of `score(new line) - score(old line)`. -/
def evaluateGameAt (b : Board) (y x : Nat) : Int :=
  ([0, 1, 2, 3].map
    (fun d =>
      let lines := generateLine b y x d
      evaluateLine lines.2 - evaluateLine lines.1)).sum

/-- `GomokuGame.evaluate_game`, keyed off `self.last_move`. Calling it with
no move played subscripts `None` in Python; that precondition violation is
rendered as `none`. -/
def evaluateGame (g : Game) : Option Int :=
  g.lastMove.map (fun c => evaluateGameAt g.board c.1 c.2)

/-! ## Neighbour filter (`valid_moves_with_neighbour`, `_check_neighbour`) -/

/-- `_check_neighbour(move, radius)`: whether some occupied cell lies within
Chebyshev distance `radius` of `move` (the scan includes the move's own cell,
which is empty for any genuinely valid move). Python iterates `y` from
`move[0] - radius` to `move[0] + radius` (possibly negative) and bound-checks
inside the loop. -/
def checkNeighbour (b : Board) (m : Move) (radius : Nat) : Bool :=
  (List.range (2 * radius + 1)).any
    (fun dy =>
      (List.range (2 * radius + 1)).any
        (fun dx =>
          let y : Int := (m.1 : Int) - radius + dy
          let x : Int := (m.2 : Int) - radius + dx
          decide (0 ≤ y) && decide (y ≤ 14) && decide (0 ≤ x) && decide (x ≤ 14) &&
            decide (cell b y.toNat x.toNat ≠ 0)))

/-- `GomokuGame.valid_moves_with_neighbour(radius)`: the valid moves that
have an occupied cell nearby, in valid-list order. -/
def validMovesWithNeighbour (g : Game) (radius : Nat) : List Move :=
  g.validMoves.filter (fun m => checkNeighbour g.board m radius)

/-! ## Plain minimax (`AIPlayer.make_move`) -/

/-- The loop body of `AIPlayer.make_move`: with `f` the recursive child
score, a candidate replaces the running `(score, next_move)` when its score
is `>=` the running score. -/
def searchStep (f : Move → Int) (acc : Int × Option Move) (m : Move) :
    Int × Option Move :=
  if acc.1 ≤ f m then (f m, some m) else acc

/-- `AIPlayer.make_move(game, d)`, returning the pair
`(returned score, self._next_move as left by the call)`. An empty board
short-circuits to `(100, (7, 7))`; depth 0 and candidate-less positions
return the static evaluation with no move; otherwise the candidate loop
folds `searchStep` starting from `(0, None)` — note the running score
restarts at `0`, not at the static evaluation and not at the first child's
score. -/
def makeMoveSearch : Nat → Game → Int × Option Move
  | d, g =>
    match g.lastMove with
    | none => (100, some (7, 7))
    | some c =>
      let s0 := evaluateGameAt g.board c.1 c.2
      match d with
      | 0 => (s0, none)
      | d' + 1 =>
        let moves := validMovesWithNeighbour g 1
        if moves = [] then (s0, none)
        else
          moves.foldl
            (searchStep (fun m => (makeMoveSearch d' (childGame g m)).1))
            (0, none)

/-- Scores and search bounds for the pruned search: Python mixes `int`
scores with `float('-inf')` / `float('inf')` defaults, so the value space is
the integers extended with two infinities. -/
inductive XInt where
  | negInf : XInt
  | fin : Int → XInt
  | posInf : XInt
deriving Repr, DecidableEq

/-- Negation on extended scores (`-float('inf') == float('-inf')`). -/
def XInt.neg : XInt → XInt
  | negInf => posInf
  | fin z => fin (-z)
  | posInf => negInf

/-- Strict comparison on extended scores, matching Python's `<` on mixed
ints and infinities (an infinity is not less than itself). -/
def XInt.blt : XInt → XInt → Bool
  | negInf, negInf => false
  | negInf, _ => true
  | fin _, negInf => false
  | fin a, fin b => a < b
  | fin _, posInf => true
  | posInf, _ => false

/-- Non-strict comparison, `a <= b` iff `not (b < a)` (no NaNs arise). -/
def XInt.ble (a b : XInt) : Bool :=
  !(XInt.blt b a)

/-- `AIPlayer.make_move_and_prune(game, d, alpha, beta)`, returning the
`alpha` value the call returns (the `self._next_move` bookkeeping and its
top-level assert do not affect the returned score and are not modeled).
Each candidate's recursive score is negated with swapped, negated bounds;
`alpha` is replaced on a strict improvement, and the loop breaks once
`alpha >= beta`. -/
def makeMovePrune : Nat → Game → XInt → XInt → XInt
  | d, g, alpha, beta =>
    match g.lastMove with
    | none => .fin 100
    | some c =>
      let s0 := evaluateGameAt g.board c.1 c.2
      match d with
      | 0 => .fin s0
      | d' + 1 =>
        let moves := validMovesWithNeighbour g 1
        if moves = [] then .fin s0
        else
          (moves.foldl
            (fun (st : XInt × Bool) m =>
              if st.2 then st
              else
                let score := (makeMovePrune d' (childGame g m) beta.neg st.1.neg).neg
                if st.1.blt score then (score, beta.ble score) else st)
            (alpha, false)).1

/-- The maximum of a list of integers, `none` for the empty list; used to
state what the searches return in terms of their children's scores. -/
def listMaxZ : List Int → Option Int
  | [] => none
  | z :: zs => some (zs.foldl max z)

/-! ## Lemmas about `_check_contain` and `_evaluate_line` -/

/-- `_check_contain(a, b)` holds exactly when `a` occurs as a contiguous
subsequence of `b`. -/
theorem checkContain_iff (a b : List Cell) :
    checkContain a b = true ↔ ∃ s t, b = s ++ a ++ t := by
  unfold checkContain
  rw [List.any_eq_true]
  constructor
  · rintro ⟨i, -, hi⟩
    have ha : (b.drop i).take a.length = a := by
      simpa using hi
    refine ⟨b.take i, b.drop (i + a.length), ?_⟩
    have hd : b.drop i = a ++ b.drop (i + a.length) := by
      conv_lhs => rw [← List.take_append_drop a.length (b.drop i)]
      rw [ha, List.drop_drop]
    calc b = b.take i ++ b.drop i := (List.take_append_drop i b).symm
      _ = b.take i ++ (a ++ b.drop (i + a.length)) := by rw [hd]
      _ = b.take i ++ a ++ b.drop (i + a.length) := by rw [List.append_assoc]
  · rintro ⟨s, t, rfl⟩
    refine ⟨s.length, ?_, ?_⟩
    · rw [List.mem_range]
      simp only [List.length_append]
      omega
    · have h1 : (s ++ a ++ t).drop s.length = a ++ t := by
        rw [List.append_assoc]
        exact List.drop_left s (a ++ t)
      rw [h1]
      simp [List.take_left]

/-- Containment is preserved by reversing both the pattern and the line. -/
theorem checkContain_reverse (a b : List Cell) :
    checkContain a.reverse b.reverse = checkContain a b := by
  have key : checkContain a.reverse b.reverse = true ↔ checkContain a b = true := by
    rw [checkContain_iff, checkContain_iff]
    constructor
    · rintro ⟨s, t, h⟩
      refine ⟨t.reverse, s.reverse, ?_⟩
      have := congrArg List.reverse h
      simpa [List.reverse_append, List.append_assoc] using this
    · rintro ⟨s, t, rfl⟩
      exact ⟨t.reverse, s.reverse, by simp [List.reverse_append, List.append_assoc]⟩
  cases h1 : checkContain a.reverse b.reverse <;> cases h2 : checkContain a b <;>
    simp_all

/-- The per-pattern match condition of `_evaluate_line` is invariant under
reversing the line. -/
theorem matchCond_reverse (p : List Cell) (line : List Cell) :
    (checkContain p line.reverse || checkContain p.reverse line.reverse)
      = (checkContain p line || checkContain p.reverse line) := by
  have h1 : checkContain p line.reverse = checkContain p.reverse line := by
    have := checkContain_reverse p.reverse line
    simpa using this
  have h2 : checkContain p.reverse line.reverse = checkContain p line := by
    exact checkContain_reverse p line
  rw [h1, h2, Bool.or_comm]

/-- A running-total fold of conditional scores equals the accumulator plus
the sum of the individual contributions (additive, non-exclusive matching). -/
theorem foldl_cond_sum (cond : List Cell × Int → Bool) :
    ∀ (ps : List (List Cell × Int)) (acc : Int),
      ps.foldl (fun score p => if cond p then score + p.2 else score) acc
        = acc + (ps.map (fun p => if cond p then p.2 else 0)).sum
  | [], acc => by simp
  | p :: ps, acc => by
    simp only [List.foldl_cons, List.map_cons, List.sum_cons]
    by_cases h : cond p = true
    · rw [if_pos h, if_pos h, foldl_cond_sum cond ps (acc + p.2)]
      ring
    · rw [if_neg h, if_neg h, foldl_cond_sum cond ps acc]
      ring

/-! ## Lemmas about the minimax candidate loop -/

/-- The score component of the `make_move` loop is a running maximum. -/
theorem foldl_searchStep_fst (f : Move → Int) :
    ∀ (l : List Move) (a : Int) (mo : Option Move),
      (l.foldl (searchStep f) (a, mo)).1 = l.foldl (fun b m => max b (f m)) a
  | [], _, _ => rfl
  | m :: l, a, mo => by
    simp only [List.foldl_cons, searchStep]
    by_cases h : a ≤ f m
    · rw [if_pos h, foldl_searchStep_fst f l (f m) (some m), max_eq_right h]
    · rw [if_neg h, foldl_searchStep_fst f l a mo,
        max_eq_left (le_of_lt (lt_of_not_le h))]

/-- The initial accumulator bounds the running maximum from below. -/
theorem le_foldl_max_init (f : Move → Int) :
    ∀ (l : List Move) (a : Int), a ≤ l.foldl (fun b m => max b (f m)) a
  | [], _ => le_refl _
  | m :: l, a =>
    le_trans (le_max_left a (f m)) (le_foldl_max_init f l (max a (f m)))

/-- The running maximum is either the initial accumulator or attained by
some listed candidate. -/
theorem foldl_max_attained (f : Move → Int) :
    ∀ (l : List Move) (a : Int),
      l.foldl (fun b m => max b (f m)) a = a
        ∨ ∃ m ∈ l, l.foldl (fun b m => max b (f m)) a = f m
  | [], _ => Or.inl rfl
  | m :: l, a => by
    simp only [List.foldl_cons]
    rcases foldl_max_attained f l (max a (f m)) with h | ⟨m', hm', h⟩
    · by_cases hle : a ≤ f m
      · exact Or.inr ⟨m, List.mem_cons_self m l, by rw [h, max_eq_right hle]⟩
      · exact Or.inl (by rw [h, max_eq_left (le_of_lt (lt_of_not_le hle))])
    · exact Or.inr ⟨m', List.mem_cons_of_mem m hm', h⟩

/-- The move component of the `make_move` loop: the last-enumerated
candidate whose score equals the final running maximum, or the initial move
when no candidate's score does. -/
theorem foldl_searchStep_snd (f : Move → Int) :
    ∀ (l : List Move) (a : Int) (mo : Option Move),
      (l.foldl (searchStep f) (a, mo)).2 =
        match l.reverse.find?
            (fun m => f m == l.foldl (fun b m => max b (f m)) a) with
        | some m => some m
        | none => mo
  | [], _, _ => rfl
  | m :: l, a, mo => by
    have hM : (m :: l).foldl (fun b m => max b (f m)) a
        = l.foldl (fun b m => max b (f m)) (max a (f m)) := rfl
    set M := l.foldl (fun b m => max b (f m)) (max a (f m)) with hMdef
    have hfind : (m :: l).reverse.find? (fun m' => f m' == M)
        = ((l.reverse.find? (fun m' => f m' == M)).or
            ([m].find? (fun m' => f m' == M))) := by
      rw [List.reverse_cons, List.find?_append]
    simp only [List.foldl_cons, searchStep, hM, hfind]
    by_cases h : a ≤ f m
    · rw [if_pos h, foldl_searchStep_snd f l (f m) (some m)]
      have hM2 : l.foldl (fun b m => max b (f m)) (f m) = M := by
        rw [hMdef, max_eq_right h]
      rw [hM2]
      cases hfound : l.reverse.find? (fun m' => f m' == M) with
      | some m' => simp [Option.or]
      | none =>
        have hnone : ∀ x ∈ l, f x ≠ M := by
          intro x hx
          have := List.find?_eq_none.mp hfound x (List.mem_reverse.mpr hx)
          simpa using this
        have hMa : M = f m := by
          rcases foldl_max_attained f l (max a (f m)) with h1 | ⟨x, hx, h1⟩
          · rw [← hMdef] at h1
            rw [h1, max_eq_right h]
          · exact absurd (hMdef ▸ h1).symm (hnone x hx)
        have : ((f m == M) : Bool) = true := by simpa using hMa.symm
        simp [Option.or, List.find?, this]
    · rw [if_neg h, foldl_searchStep_snd f l a mo]
      have hinit : l.foldl (fun b m => max b (f m)) a = M := by
        rw [hMdef, max_eq_left (le_of_lt (lt_of_not_le h))]
      rw [hinit]
      cases hfound : l.reverse.find? (fun m' => f m' == M) with
      | some m' => simp [Option.or]
      | none =>
        have hlt : f m < a := lt_of_not_le h
        have hle : a ≤ M := by
          rw [hMdef]
          exact le_trans (le_max_left a (f m)) (le_foldl_max_init f l _)
        have : ((f m == M) : Bool) = false := by
          simp only [beq_eq_false_iff_ne, ne_eq]
          omega
        simp [Option.or, List.find?, this]

/-- Unfolding `make_move` one ply on a non-empty board with candidates: the
return value is the candidate fold started from `(0, None)`. -/
theorem makeMoveSearch_succ (d' : Nat) (g : Game) (c : Move)
    (h1 : g.lastMove = some c) (h2 : validMovesWithNeighbour g 1 ≠ []) :
    makeMoveSearch (d' + 1) g =
      (validMovesWithNeighbour g 1).foldl
        (searchStep (fun m => (makeMoveSearch d' (childGame g m)).1)) (0, none) := by
  conv_lhs => rw [makeMoveSearch]
  simp only [h1]
  rw [if_neg h2]

/-- At depth 0 the pruned search returns the same score as the plain search,
wrapped as a finite extended score, whatever the bounds. -/
theorem makeMovePrune_zero (g : Game) (a b : XInt) :
    makeMovePrune 0 g a b = .fin ((makeMoveSearch 0 g).1) := by
  cases hL : g.lastMove with
  | none => rw [makeMovePrune, makeMoveSearch]; simp [hL]
  | some c => rw [makeMovePrune, makeMoveSearch]; simp [hL]

/-- Unfolding `make_move_and_prune` one ply on a non-empty board with
candidates. -/
theorem makeMovePrune_succ (d' : Nat) (g : Game) (c : Move) (a b : XInt)
    (h1 : g.lastMove = some c) (h2 : validMovesWithNeighbour g 1 ≠ []) :
    makeMovePrune (d' + 1) g a b =
      ((validMovesWithNeighbour g 1).foldl
        (fun (st : XInt × Bool) m =>
          if st.2 then st
          else
            let score := (makeMovePrune d' (childGame g m) b.neg st.1.neg).neg
            if st.1.blt score then (score, b.ble score) else st)
        (a, false)).1 := by
  conv_lhs => rw [makeMovePrune]
  simp only [h1]
  rw [if_neg h2]

/-- With an upper bound of `+inf` the pruning flag never fires, so the loop
of `make_move_and_prune` is a plain running maximum on extended scores. -/
theorem foldl_pruneStep_eq (v : Move → Int) :
    ∀ (l : List Move) (a : XInt),
      l.foldl
        (fun (st : XInt × Bool) m =>
          if st.2 then st
          else if st.1.blt (.fin (v m)) then
            (XInt.fin (v m), XInt.posInf.ble (.fin (v m)))
          else st)
        (a, false)
      = (l.foldl (fun x m => if x.blt (.fin (v m)) then XInt.fin (v m) else x) a,
          false)
  | [], _ => rfl
  | m :: l, a => by
    simp only [List.foldl_cons]
    have hble : XInt.posInf.ble (.fin (v m)) = false := rfl
    by_cases h : a.blt (.fin (v m)) = true
    · simp only [hble, h, if_pos, if_true, Bool.false_eq_true, if_false]
      exact foldl_pruneStep_eq v l (.fin (v m))
    · have h' : a.blt (.fin (v m)) = false := by simpa using h
      simp only [hble, h', Bool.false_eq_true, if_false]
      exact foldl_pruneStep_eq v l a

/-- A running maximum on finite extended scores is a running maximum on the
underlying integers. -/
theorem foldl_xmax_fin (v : Move → Int) :
    ∀ (l : List Move) (c : Int),
      l.foldl (fun x m => if x.blt (.fin (v m)) then XInt.fin (v m) else x) (.fin c)
        = .fin (l.foldl (fun b m => max b (v m)) c)
  | [], _ => rfl
  | m :: l, c => by
    simp only [List.foldl_cons]
    by_cases h : c < v m
    · have hb : (XInt.fin c).blt (.fin (v m)) = true := by
        simp [XInt.blt, h]
      rw [hb, max_eq_right (le_of_lt h)]
      exact foldl_xmax_fin v l (v m)
    · have hb : (XInt.fin c).blt (.fin (v m)) = false := by
        simp [XInt.blt, h]
      rw [hb, max_eq_left (not_lt.mp h)]
      exact foldl_xmax_fin v l c

/-- Starting from `-inf` on a non-empty candidate list, the extended running
maximum is the (finite) maximum of the candidates' scores. -/
theorem foldl_xmax_negInf (v : Move → Int) (m : Move) (l : List Move) :
    (m :: l).foldl (fun x m => if x.blt (.fin (v m)) then XInt.fin (v m) else x)
        XInt.negInf
      = .fin (l.foldl (fun b m' => max b (v m')) (v m)) := by
  have h0 : XInt.negInf.blt (.fin (v m)) = true := rfl
  simp only [List.foldl_cons, h0, if_true]
  exact foldl_xmax_fin v l (v m)

/-! ## Concrete game states used by the counterexamples and witnesses -/

/-- An all-zero board row. -/
def z15 : List Cell := List.replicate 15 0

/-- A fresh game, as the console entry point builds it: `GomokuGame()`. -/
def gEmpty : Game := initGame none true 0

/-- The fresh game after the single (white) move `(7, 7)`. -/
def gOne : Game := makeMove gEmpty (7, 7)

/-- A board whose row 7 holds six contiguous black stones in columns 3–8;
viewed from a last move at `(7, 7)`, four of them lie to its left and one to
its right. -/
def b1 : Board :=
  [z15, z15, z15, z15, z15, z15, z15,
   [0, 0, 0, 2, 2, 2, 2, 2, 2, 0, 0, 0, 0, 0, 0],
   z15, z15, z15, z15, z15, z15, z15]

/-- A striped board row, `1,1,2,2` repeating. -/
def rowA : List Cell := [1, 1, 2, 2, 1, 1, 2, 2, 1, 1, 2, 2, 1, 1, 2]

/-- The same stripe phase-shifted by two, `2,2,1,1` repeating. -/
def rowB : List Cell := [2, 2, 1, 1, 2, 2, 1, 1, 2, 2, 1, 1, 2, 2, 1]

/-- A board with every cell occupied except `(7, 7)`. The `1,1,2,2` stripes
keep every same-color run at length at most 2 on all four axes, so no
five-in-a-row exists anywhere; row 7 is locally adjusted so that the empty
cell sits inside the black shapes `[2,2,2,0,2]`, `[2,2,0,2,2]` and
`[2,0,2,2]`, which score `55000 + 55000 + 30000` and are all destroyed when
a white stone fills the hole. -/
def fullButOne : Board :=
  [rowA, rowB, rowA, rowB, rowA, rowB, rowA,
   [2, 2, 1, 1, 2, 2, 2, 0, 2, 2, 1, 1, 2, 2, 1],
   rowA, rowB, rowA, rowB, rowA, rowB, rowA]

/-- The 224-move position over `fullButOne`: white to move, exactly one
valid move `(7, 7)` (the valid-move set is exactly the complement of the
occupied cells), last move at the black stone `(0, 2)`, no winner yet. Its
single neighbour-filtered candidate `(7, 7)` has child evaluation
`-140000`. -/
def gFull : Game :=
  { board := fullButOne
    validMoves := [(7, 7)]
    isWhiteActive := true
    moveCount := 224
    movesSoFar := []
    lastMove := some (0, 2) }

/-- A fully occupied board: row 0 has five black stones in columns 0–4
followed by ten white stones, and the remaining rows alternate all-white and
all-black. -/
def fullBoard : Board :=
  [[2, 2, 2, 2, 2, 1, 1, 1, 1, 1, 1, 1, 1, 1, 1],
   List.replicate 15 1, List.replicate 15 2, List.replicate 15 1,
   List.replicate 15 2, List.replicate 15 1, List.replicate 15 2,
   List.replicate 15 1, List.replicate 15 2, List.replicate 15 1,
   List.replicate 15 2, List.replicate 15 1, List.replicate 15 2,
   List.replicate 15 1, List.replicate 15 2]

/-- A finished 225-move game whose 225th move `(0, 4)` (black) completed an
exact five-in-a-row in row 0. -/
def s3 : Game :=
  { board := fullBoard
    validMoves := []
    isWhiteActive := true
    moveCount := 225
    movesSoFar := []
    lastMove := some (0, 4) }

/-- A mid-game position whose last move `(0, 4)` (white) completed an exact
white five-in-a-row in row 0. -/
def gWin : Game :=
  { board := [[1, 1, 1, 1, 1, 0, 0, 0, 0, 0, 0, 0, 0, 0, 0],
              z15, z15, z15, z15, z15, z15, z15, z15, z15, z15, z15, z15,
              z15, z15]
    validMoves := []
    isWhiteActive := false
    moveCount := 9
    movesSoFar := []
    lastMove := some (0, 4) }

/-- `gOne` with the turn flag flipped and unrelated bookkeeping changed, but
the same grid and last move. -/
def gOneFlipped : Game :=
  { gOne with isWhiteActive := true, moveCount := 12, movesSoFar := [] }

/-! ## Claim theorems -/

/-- C9: `_evaluate_line` gives the same total score for a line and for its
exact left-right reversal; `_check_contain` is exactly contiguous-subsequence
occurrence; and matching is additive and non-exclusive — the total is the sum,
over every catalog pattern whose signature or reversal occurs in the line, of
that pattern's score. -/
theorem C9_line_reversal_and_additivity :
    (∀ line : List Cell, evaluateLine line.reverse = evaluateLine line)
  ∧ (∀ a b : List Cell, checkContain a b = true ↔ ∃ s t, b = s ++ a ++ t)
  ∧ (∀ line : List Cell,
      evaluateLine line
        = (catalog.map
            (fun p =>
              if checkContain p.1 line || checkContain p.1.reverse line then p.2
              else 0)).sum) := by
  refine ⟨?_, checkContain_iff, ?_⟩
  · intro line
    unfold evaluateLine
    have hfun : (fun (score : Int) (p : List Cell × Int) =>
        if checkContain p.1 line.reverse || checkContain p.1.reverse line.reverse
        then score + p.2 else score)
      = (fun (score : Int) (p : List Cell × Int) =>
        if checkContain p.1 line || checkContain p.1.reverse line
        then score + p.2 else score) := by
      funext score p
      rw [matchCond_reverse]
    rw [hfun]
  · intro line
    unfold evaluateLine
    rw [foldl_cond_sum
      (fun p => checkContain p.1 line || checkContain p.1.reverse line) catalog 0]
    ring

/-- C10: the incremental evaluation reads only the grid and the last move,
so two states agreeing on those — whatever their active color, move count or
history — get the same score. -/
theorem C10_eval_ignores_turn (g1 g2 : Game) (hb : g1.board = g2.board)
    (hl : g1.lastMove = g2.lastMove) : evaluateGame g1 = evaluateGame g2 := by
  unfold evaluateGame
  rw [hb, hl]

/-- Witness for C10: the one-stone position and its turn-flipped variant
evaluate identically although their active colors differ. -/
theorem C10_witness :
    evaluateGame gOne = evaluateGame gOneFlipped
  ∧ gOne.isWhiteActive = false ∧ gOneFlipped.isWhiteActive = true :=
  ⟨C10_eval_ignores_turn gOne gOneFlipped rfl rfl, rfl, rfl⟩

/-- C1 (code bug): on the board `b1`, the move `(7, 7)` sits in a contiguous
black run of exactly 6 stones (4 to its left, 1 to its right), and no axis
through it carries a run of exactly 5 — yet `_five_in_a_row` reports a win,
because it tests `count == 5` after adding each single direction's capped
count instead of testing the full run. This contradicts the function's own
docstring ("count must be exactly 5 in order to win ... a row of more than 5
stones ... doesn't count as a win"). -/
theorem C1_six_run_reported_as_win :
    fiveInARow b1 7 7 true = true
  ∧ specRunTotal b1 7 7 2 ((-1, 0), (1, 0)) = 6
  ∧ specRunTotal b1 7 7 2 ((0, -1), (0, 1)) = 1
  ∧ specRunTotal b1 7 7 2 ((-1, 1), (1, -1)) = 1
  ∧ specRunTotal b1 7 7 2 ((-1, -1), (1, 1)) = 1 := by decide

/-- C2 (code bug): the clone built by `copy_and_make_move` keeps the
occupied cell `(7, 7)` in its valid-move list, because the constructor
always resets `_valid_moves` to all 225 cells even when handed a non-empty
board; the valid-move set and the occupied cells are therefore not
disjoint on this ephemeral clone. -/
theorem C2_clone_valid_moves_contain_occupied :
    (((copyAndMakeMove gOne (0, 0)).2).getD gOne).validMoves.contains (7, 7) = true
  ∧ cell (((copyAndMakeMove gOne (0, 0)).2).getD gOne).board 7 7 = 1 := by decide

/-- C4 (code bug): `make_move` at an occupied cell or out-of-range
coordinates prints and returns normally with the state untouched — no
`InvalidMoveError` (nor the `ValueError` promised by its docstring) reaches
the caller; a currently valid move is applied in full. -/
theorem C4_invalid_move_silently_dropped :
    makeMove gOne (7, 7) = gOne
  ∧ makeMove gOne (20, 20) = gOne
  ∧ cell (makeMove gOne (0, 0)).board 0 0 = 2
  ∧ (makeMove gOne (0, 0)).moveCount = 2
  ∧ (makeMove gOne (0, 0)).isWhiteActive = true
  ∧ (makeMove gOne (0, 0)).movesSoFar = [(7, 7), (0, 0)]
  ∧ (makeMove gOne (0, 0)).validMoves.contains (0, 0) = false := by decide

/-- Counterexample for C3: on the finished game `s3`, the 225th move
completed an exact five-in-a-row (run of exactly 5 through `(0, 4)` on the
row axis), yet `get_winner` reports `'Draw'` — the draw test runs before the
win test. -/
theorem C3_cex_draw_overrides_win :
    fiveInARow s3.board 0 4 s3.isWhiteActive = true
  ∧ specRunTotal s3.board 0 4 2 ((-1, 0), (1, 0)) = 5
  ∧ getWinner s3 = some "Draw" := by decide

/-- C3 as amended: with at least one move played, `get_winner` reports a
draw whenever 225 or more moves have been played — even when the last move
completed a five-in-a-row — and below 225 moves reports the just-moved
color's win exactly when the (flawed) five-in-a-row test fires, and no
winner otherwise. -/
theorem C3_amended_winner_cases (g : Game) (c : Move)
    (h1 : g.lastMove = some c) (h2 : 0 < g.moveCount) :
    (225 ≤ g.moveCount → getWinner g = some "Draw")
  ∧ (g.moveCount < 225 → fiveInARow g.board c.1 c.2 g.isWhiteActive = true →
      getWinner g = some (if g.isWhiteActive then "Black" else "White"))
  ∧ (g.moveCount < 225 → fiveInARow g.board c.1 c.2 g.isWhiteActive = false →
      getWinner g = none) := by
  have h0 : g.moveCount ≠ 0 := Nat.pos_iff_ne_zero.mp h2
  refine ⟨fun h => ?_, fun hlt hwin => ?_, fun hlt hwin => ?_⟩
  · simp [getWinner, h1, h0, h]
  · simp [getWinner, h1, h0, hwin, Nat.not_le.mpr hlt]
  · simp [getWinner, h1, h0, hwin, Nat.not_le.mpr hlt]

/-- Witness for C3: the draw-over-win case at `s3` and the ordinary win
case at `gWin`. -/
theorem C3_witness :
    getWinner s3 = some "Draw" ∧ getWinner gWin = some "White" :=
  ⟨(C3_amended_winner_cases s3 (0, 4) rfl (by decide)).1 (by decide),
   (C3_amended_winner_cases gWin (0, 4) rfl (by decide)).2.1 (by decide) (by decide)⟩

/-- Counterexample for C8: the value returned by `copy_and_make_move` is not
the move applied on top of a deep clone of the current state — its history
forgets the receiver's past moves and its valid-move list is rebuilt from
all 225 cells instead of being copied (224 entries instead of 223). -/
theorem C8_cex_clone_not_deep :
    (((copyAndMakeMove gOne (0, 0)).2).getD gOne).movesSoFar = [(0, 0)]
  ∧ (makeMove gOne (0, 0)).movesSoFar = [(7, 7), (0, 0)]
  ∧ (((copyAndMakeMove gOne (0, 0)).2).getD gOne).validMoves.length = 224
  ∧ (makeMove gOne (0, 0)).validMoves.length = 223 := by decide

/-- C8 as amended: `copy_and_make_move` never mutates the receiver; on an
invalid move it returns no clone; and on a valid in-range move it returns a
clone built from the receiver's board, active color and move count only —
the move is applied on top, the history restarts at that single move, and
the valid-move list is all 225 cells minus it. -/
theorem C8_amended_clone_semantics (g : Game) (m : Move) (hb : g.board ≠ []) :
    (copyAndMakeMove g m).1 = g
  ∧ (m ∉ g.validMoves → (copyAndMakeMove g m).2 = none)
  ∧ (m ∈ g.validMoves → m ∈ allMoves →
      (copyAndMakeMove g m).2
        = some { board := updateBoard g.board m.1 m.2
                   (if g.isWhiteActive then 1 else 2)
                 validMoves := allMoves.erase m
                 isWhiteActive := !g.isWhiteActive
                 moveCount := g.moveCount + 1
                 movesSoFar := [m]
                 lastMove := some m }) := by
  refine ⟨?_, fun hnot => ?_, fun hmem hall => ?_⟩
  · unfold copyAndMakeMove
    by_cases h : m ∈ g.validMoves
    · rw [if_pos h]
    · rw [if_neg h]
  · unfold copyAndMakeMove
    rw [if_neg hnot]
  · have hbe : g.board.isEmpty = false := by
      cases hB : g.board with
      | nil => exact absurd hB hb
      | cons r rs => rfl
    unfold copyAndMakeMove
    rw [if_pos hmem]
    unfold makeMove initGame
    simp [hbe, hall]

/-- Witness for C8: on the one-stone position, the receiver is returned
untouched, the valid clone of `(0, 0)` has exactly the predicted fields,
and the out-of-range move `(20, 20)` yields no clone. -/
theorem C8_witness :
    (copyAndMakeMove gOne (0, 0)).1 = gOne
  ∧ (copyAndMakeMove gOne (0, 0)).2
      = some { board := updateBoard gOne.board 0 0
                 (if gOne.isWhiteActive then 1 else 2)
               validMoves := allMoves.erase (0, 0)
               isWhiteActive := !gOne.isWhiteActive
               moveCount := gOne.moveCount + 1
               movesSoFar := [(0, 0)]
               lastMove := some (0, 0) }
  ∧ (copyAndMakeMove gOne (20, 20)).2 = none :=
  ⟨(C8_amended_clone_semantics gOne (0, 0) (by decide)).1,
   (C8_amended_clone_semantics gOne (0, 0) (by decide)).2.2 (by decide) (by decide),
   (C8_amended_clone_semantics gOne (20, 20) (by decide)).2.1 (by decide)⟩

set_option maxHeartbeats 1600000 in
/-- Counterexample for C5: `gFull` is non-empty, non-terminal and has the
single neighbour-filtered candidate `(7, 7)` whose raw child score is
`-140000`, yet `make_move` at depth 1 returns score `0` with no retained
move — the running best restarts at `0`, so a position whose only candidate
scores negatively returns neither the candidates' maximum nor any
candidate. -/
theorem C5_cex_all_negative_children :
    getWinner gFull = none
  ∧ validMovesWithNeighbour gFull 1 = [(7, 7)]
  ∧ (makeMoveSearch 0 (childGame gFull (7, 7))).1 = -140000
  ∧ makeMoveSearch 1 gFull = (0, none) := by
  refine ⟨by decide, by decide, by decide, by decide⟩

/-- C5 as amended: on a non-empty board with candidates, plain minimax
returns the maximum of `0` and the raw, unnegated recursive child scores
(not the plain maximum of the child scores), and the retained move is the
last-enumerated candidate whose child score equals that returned value —
`None` when every child score is negative. -/
theorem C5_amended_clamped_max (g : Game) (c : Move) (d' : Nat)
    (h1 : g.lastMove = some c) (h2 : validMovesWithNeighbour g 1 ≠ []) :
    (makeMoveSearch (d' + 1) g).1
      = ((validMovesWithNeighbour g 1).map
          (fun m => (makeMoveSearch d' (childGame g m)).1)).foldl max 0
  ∧ (makeMoveSearch (d' + 1) g).2
      = (validMovesWithNeighbour g 1).reverse.find?
          (fun m => (makeMoveSearch d' (childGame g m)).1
            == (makeMoveSearch (d' + 1) g).1) := by
  have hunf := makeMoveSearch_succ d' g c h1 h2
  set f := fun m => (makeMoveSearch d' (childGame g m)).1 with hf
  have hfst : (makeMoveSearch (d' + 1) g).1
      = (validMovesWithNeighbour g 1).foldl (fun b m => max b (f m)) 0 := by
    rw [hunf, foldl_searchStep_fst]
  constructor
  · rw [hfst, List.foldl_map]
  · rw [hfst, hunf, foldl_searchStep_snd f _ 0 none]
    cases hopt : (validMovesWithNeighbour g 1).reverse.find?
        (fun m => f m == (validMovesWithNeighbour g 1).foldl
          (fun b m => max b (f m)) 0) with
    | some y => rfl
    | none => rfl

/-- Witness for C5: the amended characterization instantiated at the
one-stone position at depth 1. -/
theorem C5_witness :
    (makeMoveSearch 1 gOne).1
      = ((validMovesWithNeighbour gOne 1).map
          (fun m => (makeMoveSearch 0 (childGame gOne m)).1)).foldl max 0
  ∧ (makeMoveSearch 1 gOne).2
      = (validMovesWithNeighbour gOne 1).reverse.find?
          (fun m => (makeMoveSearch 0 (childGame gOne m)).1
            == (makeMoveSearch 1 gOne).1) :=
  C5_amended_clamped_max gOne (7, 7) 0 rfl (by decide)

set_option maxHeartbeats 1600000 in
/-- Counterexample for C6: `gFull` has a single legal neighbour-filtered
candidate (at most 8) and is non-terminal, yet at depth 1 plain minimax
returns score `0` while alpha-beta negamax returns `140000` — the two
searches do not return identical scores. -/
theorem C6_cex_scores_differ :
    getWinner gFull = none
  ∧ (validMovesWithNeighbour gFull 1).length = 1
  ∧ (makeMoveSearch 1 gFull).1 = 0
  ∧ makeMovePrune 1 gFull .negInf .posInf = .fin 140000 := by
  refine ⟨by decide, by decide, by decide, by decide⟩

/-- C6 as amended: the two searches agree only by coincidence. At depth 1
on a board with candidates, plain minimax returns `max 0 (max of the child
evaluations)` while alpha-beta negamax returns the maximum of the *negated*
child evaluations; the two generally differ. -/
theorem C6_amended_depth1_scores (g : Game) (c : Move)
    (h1 : g.lastMove = some c) (h2 : validMovesWithNeighbour g 1 ≠ [])
    (N : Int)
    (h3 : listMaxZ ((validMovesWithNeighbour g 1).map
        (fun m => -((makeMoveSearch 0 (childGame g m)).1))) = some N) :
    (makeMoveSearch 1 g).1
      = ((validMovesWithNeighbour g 1).map
          (fun m => (makeMoveSearch 0 (childGame g m)).1)).foldl max 0
  ∧ makeMovePrune 1 g .negInf .posInf = .fin N := by
  constructor
  · rw [makeMoveSearch_succ 0 g c h1 h2, foldl_searchStep_fst, List.foldl_map]
  · obtain ⟨m0, l0, hcons⟩ :
        ∃ m0 l0, validMovesWithNeighbour g 1 = m0 :: l0 := by
      cases hv : validMovesWithNeighbour g 1 with
      | nil => exact absurd hv h2
      | cons x xs => exact ⟨x, xs, rfl⟩
    rw [makeMovePrune_succ 0 g c .negInf .posInf h1 h2]
    simp only [makeMovePrune_zero, XInt.neg]
    rw [foldl_pruneStep_eq
      (fun m => -((makeMoveSearch 0 (childGame g m)).1))]
    rw [hcons] at h3 ⊢
    rw [foldl_xmax_negInf (fun m => -((makeMoveSearch 0 (childGame g m)).1)) m0 l0]
    simp only [listMaxZ, List.map_cons, List.foldl_map] at h3
    exact congrArg XInt.fin (Option.some.inj h3)

set_option maxHeartbeats 1600000 in
/-- Witness for C6: the amended characterization instantiated at `gFull`,
where the negamax score is `140000` while the minimax score is the clamped
maximum of the child evaluations. -/
theorem C6_witness :
    (makeMoveSearch 1 gFull).1
      = ((validMovesWithNeighbour gFull 1).map
          (fun m => (makeMoveSearch 0 (childGame gFull m)).1)).foldl max 0
  ∧ makeMovePrune 1 gFull .negInf .posInf = .fin 140000 :=
  C6_amended_depth1_scores gFull (0, 2) rfl (by decide) 140000 (by decide)

